import Mathlib

/-!
Verification of the TTView rescale + render pipeline.

The Rust sources (src/styling.rs, src/resizing.rs, src/main.rs) are shallowly
embedded here.  Machine floats (f32) are modelled as exact rationals, the
2-D pixel buffer `Rgb32FImage` as a structure carrying its dimensions and a
total pixel function, in-place mutation as explicit state passing, and
panicking operations as `Except String`.
-/

namespace TTView

/-- A pixel of `Rgb32FImage`: three float channels, modelled as rationals.
Channel 0 is red, 1 green, 2 blue (`Rgb<f32>` in main.rs). -/
abbrev Pixel := Fin 3 → ℚ

/-- The pixel buffer `Rgb32FImage`: dimensions plus a (total) pixel map.
Only positions with `x < width` and `y < height` are meaningful. -/
structure Img where
  width : ℕ
  height : ℕ
  pix : ℕ → ℕ → Pixel

/-- Writing one pixel, the embedding of `put_pixel` / `get_pixel_mut` stores. -/
def Img.put (im : Img) (x y : ℕ) (p : Pixel) : Img :=
  { im with pix := fun a b => if a = x ∧ b = y then p else im.pix a b }

/-- The embedding of `get_pixel_checked`: `some` exactly on in-bounds positions. -/
def Img.getChecked (im : Img) (x y : ℕ) : Option Pixel :=
  if x < im.width ∧ y < im.height then some (im.pix x y) else none

/-- brightness (styling.rs line 118): `0.299*R + 0.587*G + 0.114*B`. -/
def brightness (p : Pixel) : ℚ :=
  299/1000 * p 0 + 587/1000 * p 1 + 114/1000 * p 2

/-- The Rust cast `f as u8` on a float: saturating, truncating toward zero. -/
def u8cast (q : ℚ) : ℕ := min 255 (Int.toNat ⌊q⌋)

/-- The Rust cast `f as u32` on a float: saturating, truncating toward zero. -/
def u32cast (q : ℚ) : ℕ := min (2 ^ 32 - 1) (Int.toNat ⌊q⌋)

/-- The Rust cast `f as usize` on a float: saturating, truncating toward zero. -/
def usizeCast (q : ℚ) : ℕ := min (2 ^ 64 - 1) (Int.toNat ⌊q⌋)

/-- fg (styling.rs line 122): the 24-bit foreground escape sequence. -/
def fg (p : Pixel) : String :=
  "\x1B[38;2;" ++ toString (u8cast (p 0 * 255)) ++ ";" ++
    toString (u8cast (p 1 * 255)) ++ ";" ++ toString (u8cast (p 2 * 255)) ++ "m"

/-- bg (styling.rs line 131): the 24-bit background escape sequence. -/
def bg (p : Pixel) : String :=
  "\x1B[48;2;" ++ toString (u8cast (p 0 * 255)) ++ ";" ++
    toString (u8cast (p 1 * 255)) ++ ";" ++ toString (u8cast (p 2 * 255)) ++ "m"

/-- The iterator `(0..n).step_by(s)`: multiples of `s` below `n`, in order. -/
def stepBy (n s : ℕ) : List ℕ := (List.range n).filter (fun k => k % s = 0)

/-- One character cell of the Color style (styling.rs lines 36-40). -/
def colorCell (im : Img) (x y : ℕ) : String :=
  (fg (im.pix x y) ++
    (match im.getChecked x (y + 1) with
     | some bot => bg bot
     | none => "")) ++ "▀\x1B[0m"

/-- The Color arm of `Style::apply` (styling.rs lines 33-43). -/
def renderColor (im : Img) : String :=
  (stepBy im.height 2).foldl (fun s y =>
    ((List.range im.width).foldl (fun s x => s ++ colorCell im x y) s) ++ "\n") ""

/-- One character cell of the Greyscale style (styling.rs lines 61-68). -/
def greyCell (im : Img) (x y : ℕ) : String :=
  (fg (fun _ => brightness (im.pix x y)) ++
    (match im.getChecked x (y + 1) with
     | some bot => bg (fun _ => brightness bot)
     | none => "")) ++ "▀\x1B[0m"

/-- The Greyscale arm of `Style::apply` (styling.rs lines 59-72). -/
def renderGrey (im : Img) : String :=
  (stepBy im.height 2).foldl (fun s y =>
    ((List.range im.width).foldl (fun s x => s ++ greyCell im x y) s) ++ "\n") ""

/-- The wrapping usize subtraction `gradient.len() - 1` (underflows at 0). -/
def wrapSub1 (n : ℕ) : ℕ := (n + (2 ^ 64 - 1)) % 2 ^ 64

/-- Ramp index of the Gradient style (styling.rs line 52):
`((gradient.len() - 1) as f32 * b) as usize`. -/
def gradIndex (ramp : List Char) (b : ℚ) : ℕ :=
  usizeCast ((wrapSub1 ramp.length : ℚ) * b)

/-- The averaged brightness of the Gradient style (styling.rs lines 48-51):
the top pixel's brightness, averaged with the bottom one when in bounds. -/
def gradAvg (im : Img) (x y : ℕ) : ℚ :=
  let b := brightness (im.pix x y)
  match im.getChecked x (y + 1) with
  | some bot => (b + brightness bot) / 2
  | none => b

/-- One character cell of the Gradient style (styling.rs lines 48-54); the
indexing `gradient[char_index]` panics (modelled as `Except.error`) when the
index is out of range. -/
def gradCell (ramp : List Char) (im : Img) (x y : ℕ) : Except String String :=
  match ramp.get? (gradIndex ramp (gradAvg im x y)) with
  | some c => .ok (String.singleton c ++ "\x1B[0m" ++ "\x1B[0m")
  | none => .error "index out of bounds"

/-- The Gradient arm of `Style::apply` (styling.rs lines 45-57). -/
def renderGradient (ramp : List Char) (im : Img) : Except String String :=
  (stepBy im.height 2).foldlM (fun s y =>
    ((List.range im.width).foldlM (fun s x =>
      (gradCell ramp im x y).map (fun c => s ++ c)) s).map (fun s => s ++ "\n")) ""

/-- Dot offsets of the Braille style (styling.rs lines 87-96), in bit order. -/
def offsets : List (ℕ × ℕ) := [(0, 0), (0, 1), (0, 2), (1, 0), (1, 1), (1, 2), (0, 3), (1, 3)]

/-- The byte accumulated for one 2x4 block (styling.rs lines 97-105). -/
def brailleByte (im : Img) (x y : ℕ) : ℕ :=
  (List.range 8).foldl (fun byte index =>
    let o := offsets.getD index (0, 0)
    match im.getChecked (x + o.1) (y + o.2) with
    | some p => if brightness p < 1/2 then byte ||| (1 <<< index) else byte
    | none => byte) 0

/-- One glyph of the Braille style (styling.rs lines 106-108):
`char::from_u32(0x2800 + byte)` with the `expect` modelled as `Except.error`. -/
def brailleCell (im : Img) (x y : ℕ) : Except String String :=
  if Nat.isValidChar (0x2800 + brailleByte im x y) then
    .ok (String.singleton (Char.ofNat (0x2800 + brailleByte im x y)))
  else .error "failed to encode braille"

/-- The Braille arm of `Style::apply` (styling.rs lines 83-111). -/
def renderBraille (im : Img) : Except String String :=
  (stepBy im.height 4).foldlM (fun s y =>
    ((stepBy im.width 2).foldlM (fun s x =>
      (brailleCell im x y).map (fun c => s ++ c)) s).map (fun s => s ++ "\n")) ""

/-- The shared raster traversal shape of `greyscale` and `floyd_steinberg`:
row-major, left to right, top to bottom, threading the buffer. -/
def rasterFold (step : Img → ℕ → ℕ → Img) (im : Img) : Img :=
  (List.range im.height).foldl (fun im y =>
    (List.range im.width).foldl (fun im x => step im x y) im) im

/-- The body of the greyscale loop (styling.rs lines 143-144). -/
def greyStep (im : Img) (x y : ℕ) : Img :=
  im.put x y (fun _ => brightness (im.pix x y))

/-- greyscale (styling.rs lines 140-147): replicate brightness over channels. -/
def greyscale (im : Img) : Img := rasterFold greyStep im

/-- quantize (styling.rs lines 149-158), the value left in the pixel:
each channel goes to 0 below the 0.5 threshold and to 1 otherwise. -/
def quantizePix (p : Pixel) : Pixel := fun c => if p c < 1/2 then 0 else 1

/-- quantize (styling.rs lines 149-158), the returned error: `value - q`. -/
def quantizeErr (p : Pixel) : Pixel := fun c => p c - quantizePix p c

/-- One error-diffusion write (styling.rs line 172):
`pixel[c] += error[c] * f / 16.0`. -/
def diffuse (err : Pixel) (f : ℚ) (p : Pixel) : Pixel :=
  fun c => p c + err c * f / 16

/-- The neighbour table of floyd_steinberg (styling.rs line 165). -/
def fsIndices : List (ℤ × ℕ × ℚ) := [(1, 0, 7), (-1, 1, 3), (0, 1, 5), (1, 1, 1)]

/-- One neighbour update of floyd_steinberg (styling.rs lines 166-174): the
explicit `x == 0 && i == -1` skip, then the cast chain
`(x as i32 + i) as u32` (wrapping, modelled by `% 2^32`), then the
bounds-checked in-place addition. -/
def fsNbr (x y : ℕ) (err : Pixel) (im : Img) (t : ℤ × ℕ × ℚ) : Img :=
  if x = 0 ∧ t.1 = -1 then im
  else
    let nx := ((((x : ℤ) + t.1) % (2 ^ 32 : ℤ))).toNat
    let ny := y + t.2.1
    if nx < im.width ∧ ny < im.height then
      im.put nx ny (diffuse err t.2.2 (im.pix nx ny))
    else im

/-- The body of the floyd_steinberg loops (styling.rs lines 163-175):
quantize the current pixel in place, then diffuse the error. -/
def fsStep (im : Img) (x y : ℕ) : Img :=
  let err := quantizeErr (im.pix x y)
  let im1 := im.put x y (quantizePix (im.pix x y))
  fsIndices.foldl (fsNbr x y err) im1

/-- floyd_steinberg (styling.rs lines 160-178). -/
def floyd_steinberg (im : Img) : Img := rasterFold fsStep im

/-- Modelled from the claim wording of C1 (spec section 4.2, Phase 2): one
neighbour update with the target addressed directly at the integer
coordinate `(x + i, y + j)` and applied exactly when that coordinate is
inside the image, which in particular skips the `(x-1, y+1)` target when
`x = 0`. -/
def fsNbrSpec (x y : ℕ) (err : Pixel) (im : Img) (t : ℤ × ℕ × ℚ) : Img :=
  let nx := (x : ℤ) + t.1
  let ny := y + t.2.1
  if 0 ≤ nx ∧ nx.toNat < im.width ∧ ny < im.height then
    im.put nx.toNat ny (diffuse err t.2.2 (im.pix nx.toNat ny))
  else im

/-- Modelled from the claim wording of C1: quantize the pixel (threshold 0.5
per channel), then add the residual fractions 7/16, 3/16, 5/16, 1/16 to the
in-bounds neighbours. -/
def fsStepSpec (im : Img) (x y : ℕ) : Img :=
  let err := quantizeErr (im.pix x y)
  let im1 := im.put x y (quantizePix (im.pix x y))
  fsIndices.foldl (fsNbrSpec x y err) im1

/-- Modelled from the claim wording of C1: the Floyd-Steinberg pass in raster
order (row-major, left to right, top to bottom). -/
def floyd_steinberg_spec (im : Img) : Img := rasterFold fsStepSpec im

/-- Display style (styling.rs lines 7-27). -/
inductive Style where
  | Color
  | Greyscale
  | Gradient (ramp : List Char)
  | Braille
  | DitheredBraille
  | Dithered

/-- Style::apply (styling.rs lines 30-115): renders the buffer to a string.
The `&mut Rgb32FImage` argument is modelled by returning the final buffer
next to the string; panics inside the call are `Except.error`.  The
`Dithered` and `DitheredBraille` arms delegate to `Greyscale` and `Braille`
on the pre-processed buffer, inlined here. -/
def Style.apply : Style → Img → Except String (Img × String)
  | .Color, im => .ok (im, renderColor im)
  | .Gradient ramp, im => (renderGradient ramp im).map (fun s => (im, s))
  | .Greyscale, im => .ok (im, renderGrey im)
  | .DitheredBraille, im =>
      let im := floyd_steinberg (greyscale im)
      (renderBraille im).map (fun s => (im, s))
  | .Dithered, im =>
      let im := floyd_steinberg (greyscale im)
      .ok (im, renderGrey im)
  | .Braille, im => (renderBraille im).map (fun s => (im, s))

/-- The dimension resolution of resize (resizing.rs lines 23-50), with the
`unreachable!` arm modelled as `Except.error`.  The interpolation itself is
performed by the external image crate and is out of scope; `ow`/`oh` are the
decoded image's dimensions.  The f32 arithmetic
`(oh as f32 * ((w as f32) / (ow as f32))) as u32` is modelled exactly over
the rationals. -/
def computeDims (dim : Option ℕ × Option ℕ) (ow oh : ℕ) : Except String (ℕ × ℕ) :=
  match dim with
  | (some w, none) => .ok (w, u32cast ((oh : ℚ) * ((w : ℚ) / (ow : ℚ))))
  | (none, some h) => .ok (u32cast ((ow : ℚ) * ((h : ℚ) / (oh : ℚ))), h)
  | (some w, some h) => .ok (w, h)
  | (none, none) => .error "impossible dimensions for resize!"

/-! ### Basic lemmas about the buffer and the fold combinators -/

@[simp] lemma put_width (im : Img) (x y : ℕ) (p : Pixel) : (im.put x y p).width = im.width := rfl

@[simp] lemma put_height (im : Img) (x y : ℕ) (p : Pixel) : (im.put x y p).height = im.height := rfl

lemma put_pix_self (im : Img) (x y : ℕ) (p : Pixel) : (im.put x y p).pix x y = p := by
  simp [Img.put]

lemma put_pix_ne (im : Img) (x y : ℕ) (p : Pixel) (a b : ℕ) (h : ¬(a = x ∧ b = y)) :
    (im.put x y p).pix a b = im.pix a b := by
  simp [Img.put, h]

lemma getChecked_eq_some (im : Img) (x y : ℕ) (h : x < im.width ∧ y < im.height) :
    im.getChecked x y = some (im.pix x y) := by
  simp [Img.getChecked, h]

lemma getChecked_eq_none (im : Img) (x y : ℕ) (h : ¬(x < im.width ∧ y < im.height)) :
    im.getChecked x y = none := by
  simp [Img.getChecked, h]

lemma foldl_width {α : Type} (g : Img → α → Img) (hg : ∀ im a, (g im a).width = im.width)
    (l : List α) (im : Img) : (l.foldl g im).width = im.width := by
  induction l generalizing im with
  | nil => rfl
  | cons a l ih => simp only [List.foldl_cons]; rw [ih, hg]

lemma foldl_height {α : Type} (g : Img → α → Img) (hg : ∀ im a, (g im a).height = im.height)
    (l : List α) (im : Img) : (l.foldl g im).height = im.height := by
  induction l generalizing im with
  | nil => rfl
  | cons a l ih => simp only [List.foldl_cons]; rw [ih, hg]

lemma foldl_hcongr {α β : Type} (l : List α) (f g : β → α → β)
    (h : ∀ b a, a ∈ l → f b a = g b a) : ∀ b, l.foldl f b = l.foldl g b := by
  induction l with
  | nil => intro b; rfl
  | cons a l ih =>
      intro b
      simp only [List.foldl_cons]
      rw [h b a (List.mem_cons_self a l)]
      exact ih (fun b a ha => h b a (List.mem_cons_of_mem _ ha)) _

lemma foldl_congr_inv {α : Type} (P : Img → Prop) (f g : Img → α → Img) (l : List α)
    (hP : ∀ im a, a ∈ l → P im → P (f im a))
    (hfg : ∀ im a, a ∈ l → P im → f im a = g im a) :
    ∀ im, P im → l.foldl f im = l.foldl g im := by
  induction l with
  | nil => intro im _; rfl
  | cons a l ih =>
      intro im him
      simp only [List.foldl_cons]
      rw [← hfg im a (List.mem_cons_self a l) him]
      exact ih (fun im a ha h => hP im a (List.mem_cons_of_mem _ ha) h)
        (fun im a ha h => hfg im a (List.mem_cons_of_mem _ ha) h)
        (f im a) (hP im a (List.mem_cons_self a l) him)

lemma foldl_pix_frame {α : Type} (l : List α) (g : Img → α → Img) (a b : ℕ)
    (h : ∀ im t, t ∈ l → (g im t).pix a b = im.pix a b) (im : Img) :
    (l.foldl g im).pix a b = im.pix a b := by
  induction l generalizing im with
  | nil => rfl
  | cons t l ih =>
      simp only [List.foldl_cons]
      rw [ih (fun im t ht => h im t (List.mem_cons_of_mem _ ht)),
        h im t (List.mem_cons_self t l)]

lemma foldl_pres {α : Type} (P : Img → Prop) (l : List α) (g : Img → α → Img)
    (h : ∀ im t, t ∈ l → P im → P (g im t)) (im : Img) (him : P im) : P (l.foldl g im) := by
  induction l generalizing im with
  | nil => exact him
  | cons t l ih =>
      simp only [List.foldl_cons]
      exact ih (fun im t ht h2 => h im t (List.mem_cons_of_mem _ ht) h2) _
        (h im t (List.mem_cons_self t l) him)

lemma rasterFold_width (step : Img → ℕ → ℕ → Img)
    (hw : ∀ im x y, (step im x y).width = im.width) (im : Img) :
    (rasterFold step im).width = im.width := by
  unfold rasterFold
  exact foldl_width _ (fun im y => foldl_width _ (fun im x => hw im x y) _ im) _ im

lemma rasterFold_height (step : Img → ℕ → ℕ → Img)
    (hh : ∀ im x y, (step im x y).height = im.height) (im : Img) :
    (rasterFold step im).height = im.height := by
  unfold rasterFold
  exact foldl_height _ (fun im y => foldl_height _ (fun im x => hh im x y) _ im) _ im

/-! ### Raster traversal: partial folds, frame and establishment lemmas -/

/-- The first `n` column steps of one raster row. -/
def innerF (step : Img → ℕ → ℕ → Img) (y : ℕ) (im : Img) (n : ℕ) : Img :=
  (List.range n).foldl (fun im x => step im x y) im

/-- The first `n` row passes of a raster traversal. -/
def outerF (step : Img → ℕ → ℕ → Img) (im : Img) (n : ℕ) : Img :=
  (List.range n).foldl (fun im y => innerF step y im im.width) im

lemma rasterFold_eq_outerF (step : Img → ℕ → ℕ → Img) (im : Img) :
    rasterFold step im = outerF step im im.height := rfl

lemma innerF_succ (step : Img → ℕ → ℕ → Img) (y : ℕ) (im : Img) (n : ℕ) :
    innerF step y im (n + 1) = step (innerF step y im n) n y := by
  unfold innerF
  rw [List.range_succ, List.foldl_append, List.foldl_cons, List.foldl_nil]

lemma outerF_succ (step : Img → ℕ → ℕ → Img) (im : Img) (n : ℕ) :
    outerF step im (n + 1) =
      innerF step n (outerF step im n) (outerF step im n).width := by
  unfold outerF
  rw [List.range_succ, List.foldl_append, List.foldl_cons, List.foldl_nil]

lemma innerF_width (step : Img → ℕ → ℕ → Img)
    (hdW : ∀ im x y, (step im x y).width = im.width) (y : ℕ) (im : Img) (n : ℕ) :
    (innerF step y im n).width = im.width :=
  foldl_width _ (fun im x => hdW im x y) _ im

lemma innerF_height (step : Img → ℕ → ℕ → Img)
    (hdH : ∀ im x y, (step im x y).height = im.height) (y : ℕ) (im : Img) (n : ℕ) :
    (innerF step y im n).height = im.height :=
  foldl_height _ (fun im x => hdH im x y) _ im

lemma outerF_width (step : Img → ℕ → ℕ → Img)
    (hdW : ∀ im x y, (step im x y).width = im.width) (im : Img) (n : ℕ) :
    (outerF step im n).width = im.width :=
  foldl_width _ (fun im y => innerF_width step hdW y im im.width) _ im

lemma outerF_height (step : Img → ℕ → ℕ → Img)
    (hdH : ∀ im x y, (step im x y).height = im.height) (im : Img) (n : ℕ) :
    (outerF step im n).height = im.height :=
  foldl_height _ (fun im y => innerF_height step hdH y im im.width) _ im

lemma innerF_frame (step : Img → ℕ → ℕ → Img) (W H : ℕ)
    (hdW : ∀ im x y, (step im x y).width = im.width)
    (hdH : ∀ im x y, (step im x y).height = im.height)
    (hframe : ∀ im x y a b, im.width = W → im.height = H → x < W →
      (b < y ∨ (b = y ∧ a < x)) → (step im x y).pix a b = im.pix a b)
    (y : ℕ) (im : Img) (n : ℕ) (hW : im.width = W) (hH : im.height = H) (hn : n ≤ W)
    (a b : ℕ) (hb : b < y) : (innerF step y im n).pix a b = im.pix a b := by
  induction n with
  | zero => rfl
  | succ m ih =>
      rw [innerF_succ,
        hframe _ m y a b (by rw [innerF_width step hdW, hW])
          (by rw [innerF_height step hdH, hH]) (by omega) (Or.inl hb)]
      exact ih (by omega)

lemma innerF_estab (step : Img → ℕ → ℕ → Img) (W H : ℕ) (Q : Pixel → Prop)
    (hdW : ∀ im x y, (step im x y).width = im.width)
    (hdH : ∀ im x y, (step im x y).height = im.height)
    (hframe : ∀ im x y a b, im.width = W → im.height = H → x < W →
      (b < y ∨ (b = y ∧ a < x)) → (step im x y).pix a b = im.pix a b)
    (hest : ∀ im x y, im.width = W → im.height = H → x < W → y < H →
      Q ((step im x y).pix x y))
    (y : ℕ) (im : Img) (n : ℕ) (hW : im.width = W) (hH : im.height = H) (hn : n ≤ W)
    (hy : y < H) : ∀ a, a < n → Q ((innerF step y im n).pix a y) := by
  induction n with
  | zero => intro a ha; omega
  | succ m ih =>
      intro a ha
      rw [innerF_succ]
      rcases Nat.lt_succ_iff_lt_or_eq.mp ha with ha | ha
      · rw [hframe _ m y a y (by rw [innerF_width step hdW, hW])
          (by rw [innerF_height step hdH, hH]) (by omega) (Or.inr ⟨rfl, ha⟩)]
        exact ih (by omega) a ha
      · subst ha
        exact hest _ a y (by rw [innerF_width step hdW, hW])
          (by rw [innerF_height step hdH, hH]) (by omega) hy

lemma outerF_estab (step : Img → ℕ → ℕ → Img) (W H : ℕ) (Q : Pixel → Prop)
    (hdW : ∀ im x y, (step im x y).width = im.width)
    (hdH : ∀ im x y, (step im x y).height = im.height)
    (hframe : ∀ im x y a b, im.width = W → im.height = H → x < W →
      (b < y ∨ (b = y ∧ a < x)) → (step im x y).pix a b = im.pix a b)
    (hest : ∀ im x y, im.width = W → im.height = H → x < W → y < H →
      Q ((step im x y).pix x y))
    (im : Img) (n : ℕ) (hW : im.width = W) (hH : im.height = H) (hn : n ≤ H) :
    ∀ a b, a < W → b < n → Q ((outerF step im n).pix a b) := by
  induction n with
  | zero => intro a b ha hb; omega
  | succ m ih =>
      intro a b ha hb
      have hmw : (outerF step im m).width = W := by rw [outerF_width step hdW, hW]
      have hmh : (outerF step im m).height = H := by rw [outerF_height step hdH, hH]
      rw [outerF_succ, hmw]
      rcases Nat.lt_succ_iff_lt_or_eq.mp hb with hb | hb
      · rw [innerF_frame step W H hdW hdH hframe m _ W hmw hmh (le_refl W) a b hb]
        exact ih (by omega) a b ha hb
      · subst hb
        exact innerF_estab step W H Q hdW hdH hframe hest b _ W hmw hmh (le_refl W)
          (by omega) a ha

lemma raster_establish (step : Img → ℕ → ℕ → Img) (Q : Pixel → Prop) (im : Img)
    (hdW : ∀ im x y, (step im x y).width = im.width)
    (hdH : ∀ im x y, (step im x y).height = im.height)
    (hframe : ∀ im2 x y a b, im2.width = im.width → im2.height = im.height →
      x < im.width → (b < y ∨ (b = y ∧ a < x)) → (step im2 x y).pix a b = im2.pix a b)
    (hest : ∀ im2 x y, im2.width = im.width → im2.height = im.height →
      x < im.width → y < im.height → Q ((step im2 x y).pix x y))
    (a b : ℕ) (ha : a < im.width) (hb : b < im.height) :
    Q ((rasterFold step im).pix a b) := by
  rw [rasterFold_eq_outerF]
  exact outerF_estab step im.width im.height Q hdW hdH hframe hest im im.height rfl rfl
    (le_refl _) a b ha hb

lemma innerF_pres (step : Img → ℕ → ℕ → Img) (W H : ℕ) (P : Img → Prop)
    (hdW : ∀ im x y, (step im x y).width = im.width)
    (hdH : ∀ im x y, (step im x y).height = im.height)
    (hpres : ∀ im x y, im.width = W → im.height = H → x < W → y < H → P im →
      P (step im x y))
    (y : ℕ) (im : Img) (n : ℕ) (hW : im.width = W) (hH : im.height = H) (hn : n ≤ W)
    (hy : y < H) (him : P im) : P (innerF step y im n) := by
  induction n with
  | zero => exact him
  | succ m ih =>
      rw [innerF_succ]
      exact hpres _ m y (by rw [innerF_width step hdW, hW])
        (by rw [innerF_height step hdH, hH]) (by omega) hy (ih (by omega))

lemma outerF_pres (step : Img → ℕ → ℕ → Img) (W H : ℕ) (P : Img → Prop)
    (hdW : ∀ im x y, (step im x y).width = im.width)
    (hdH : ∀ im x y, (step im x y).height = im.height)
    (hpres : ∀ im x y, im.width = W → im.height = H → x < W → y < H → P im →
      P (step im x y))
    (im : Img) (n : ℕ) (hW : im.width = W) (hH : im.height = H) (hn : n ≤ H)
    (him : P im) : P (outerF step im n) := by
  induction n with
  | zero => exact him
  | succ m ih =>
      have hmw : (outerF step im m).width = W := by rw [outerF_width step hdW, hW]
      have hmh : (outerF step im m).height = H := by rw [outerF_height step hdH, hH]
      rw [outerF_succ, hmw]
      exact innerF_pres step W H P hdW hdH hpres m _ W hmw hmh (le_refl W) (by omega)
        (ih (by omega))

lemma rasterFold_pres (step : Img → ℕ → ℕ → Img) (P : Img → Prop) (im : Img)
    (hdW : ∀ im x y, (step im x y).width = im.width)
    (hdH : ∀ im x y, (step im x y).height = im.height)
    (hpres : ∀ im2 x y, im2.width = im.width → im2.height = im.height →
      x < im.width → y < im.height → P im2 → P (step im2 x y))
    (him : P im) : P (rasterFold step im) := by
  rw [rasterFold_eq_outerF]
  exact outerF_pres step im.width im.height P hdW hdH hpres im im.height rfl rfl
    (le_refl _) him

/-! ### Dimension preservation of the dithering passes -/

lemma fsNbr_width (x y : ℕ) (err : Pixel) (im : Img) (t : ℤ × ℕ × ℚ) :
    (fsNbr x y err im t).width = im.width := by
  unfold fsNbr
  split
  · rfl
  · dsimp only
    split <;> rfl

lemma fsNbr_height (x y : ℕ) (err : Pixel) (im : Img) (t : ℤ × ℕ × ℚ) :
    (fsNbr x y err im t).height = im.height := by
  unfold fsNbr
  split
  · rfl
  · dsimp only
    split <;> rfl

lemma fsNbrSpec_width (x y : ℕ) (err : Pixel) (im : Img) (t : ℤ × ℕ × ℚ) :
    (fsNbrSpec x y err im t).width = im.width := by
  unfold fsNbrSpec
  dsimp only
  split <;> rfl

lemma fsNbrSpec_height (x y : ℕ) (err : Pixel) (im : Img) (t : ℤ × ℕ × ℚ) :
    (fsNbrSpec x y err im t).height = im.height := by
  unfold fsNbrSpec
  dsimp only
  split <;> rfl

lemma fsStep_width (im : Img) (x y : ℕ) : (fsStep im x y).width = im.width := by
  unfold fsStep
  exact foldl_width _ (fun im t => fsNbr_width x y _ im t) _ _

lemma fsStep_height (im : Img) (x y : ℕ) : (fsStep im x y).height = im.height := by
  unfold fsStep
  exact foldl_height _ (fun im t => fsNbr_height x y _ im t) _ _

lemma fsStepSpec_width (im : Img) (x y : ℕ) : (fsStepSpec im x y).width = im.width := by
  unfold fsStepSpec
  exact foldl_width _ (fun im t => fsNbrSpec_width x y _ im t) _ _

lemma fsStepSpec_height (im : Img) (x y : ℕ) : (fsStepSpec im x y).height = im.height := by
  unfold fsStepSpec
  exact foldl_height _ (fun im t => fsNbrSpec_height x y _ im t) _ _

lemma greyStep_width (im : Img) (x y : ℕ) : (greyStep im x y).width = im.width := rfl

lemma greyStep_height (im : Img) (x y : ℕ) : (greyStep im x y).height = im.height := rfl

lemma greyscale_width (im : Img) : (greyscale im).width = im.width :=
  rasterFold_width _ greyStep_width im

lemma greyscale_height (im : Img) : (greyscale im).height = im.height :=
  rasterFold_height _ greyStep_height im

lemma floyd_width (im : Img) : (floyd_steinberg im).width = im.width :=
  rasterFold_width _ fsStep_width im

lemma floyd_height (im : Img) : (floyd_steinberg im).height = im.height :=
  rasterFold_height _ fsStep_height im

/-! ### Equivalence of the source dithering step with its specification -/

lemma fsIndices_fst (t : ℤ × ℕ × ℚ) (ht : t ∈ fsIndices) :
    t.1 = 1 ∨ t.1 = 0 ∨ t.1 = -1 := by
  fin_cases ht <;> simp

lemma fsNbr_eq_spec (x y : ℕ) (hx : x + 1 < 2 ^ 32) (err : Pixel) (im : Img)
    (t : ℤ × ℕ × ℚ) (hi : t.1 = 1 ∨ t.1 = 0 ∨ t.1 = -1) :
    fsNbr x y err im t = fsNbrSpec x y err im t := by
  obtain ⟨i, j, f⟩ := t
  simp only at hi
  unfold fsNbr fsNbrSpec
  dsimp only
  by_cases hskip : x = 0 ∧ i = -1
  · rw [if_pos hskip]
    obtain ⟨h0, h1⟩ := hskip
    subst h0
    subst h1
    rw [if_neg (by norm_num)]
  · rw [if_neg hskip]
    have hge : 0 ≤ (x : ℤ) + i := by
      rcases hi with h | h | h <;> subst h
      · omega
      · omega
      · have hx0 : x ≠ 0 := fun h0 => hskip ⟨h0, rfl⟩
        omega
    have hlt : (x : ℤ) + i < 2 ^ 32 := by
      rcases hi with h | h | h <;> subst h <;> push_cast <;> omega
    rw [Int.emod_eq_of_lt hge hlt]
    refine if_congr ?_ rfl rfl
    constructor
    · rintro ⟨h1, h2⟩
      exact ⟨hge, h1, h2⟩
    · rintro ⟨_, h1, h2⟩
      exact ⟨h1, h2⟩

lemma fsStep_eq_spec (im : Img) (x y : ℕ) (hx : x + 1 < 2 ^ 32) :
    fsStep im x y = fsStepSpec im x y := by
  unfold fsStep fsStepSpec
  exact foldl_hcongr fsIndices _ _
    (fun im2 t ht => fsNbr_eq_spec x y hx _ im2 t (fsIndices_fst t ht)) _

lemma floyd_eq_spec (im : Img) (hw : im.width < 2 ^ 32) :
    floyd_steinberg im = floyd_steinberg_spec im := by
  unfold floyd_steinberg floyd_steinberg_spec rasterFold
  refine foldl_congr_inv (fun im2 => im2.width = im.width) _ _ _ ?_ ?_ im rfl
  · intro im2 y _ h
    rw [foldl_width _ (fun im3 x => fsStep_width im3 x y) _ im2]
    exact h
  · intro im2 y _ h
    refine foldl_hcongr _ _ _ (fun im3 x hx => ?_) im2
    have hx2 : x < im.width := by
      rw [← h]
      exact List.mem_range.mp hx
    exact fsStep_eq_spec im3 x y (by omega)

/-! ### Binarization and channel-equality invariants of the dithering pass -/

/-- All three channels of a pixel agree. -/
def IsConst (p : Pixel) : Prop := ∀ c, p c = p 0

/-- Every channel of a pixel is exactly 0 or exactly 1. -/
def IsBin (p : Pixel) : Prop := ∀ c, p c = 0 ∨ p c = 1

/-- Every in-bounds pixel (w.r.t. the given dimensions) has equal channels. -/
def AllConst (W H : ℕ) (im : Img) : Prop :=
  ∀ a b, a < W → b < H → IsConst (im.pix a b)

lemma quantizePix_const (p : Pixel) (h : IsConst p) : IsConst (quantizePix p) := by
  intro c
  unfold quantizePix
  rw [h c]

lemma quantizeErr_const (p : Pixel) (h : IsConst p) : IsConst (quantizeErr p) := by
  intro c
  unfold quantizeErr
  rw [h c, quantizePix_const p h c]

lemma diffuse_const (err : Pixel) (f : ℚ) (p : Pixel) (he : IsConst err)
    (hp : IsConst p) : IsConst (diffuse err f p) := by
  intro c
  unfold diffuse
  rw [he c, hp c]

lemma put_const (im : Img) (x y : ℕ) (p : Pixel) (W H : ℕ) (hp : IsConst p)
    (him : AllConst W H im) : AllConst W H (im.put x y p) := by
  intro a b ha hb
  by_cases h : a = x ∧ b = y
  · obtain ⟨rfl, rfl⟩ := h
    rw [put_pix_self]
    exact hp
  · rw [put_pix_ne _ _ _ _ _ _ h]
    exact him a b ha hb

lemma fsNbr_pres_const (x y : ℕ) (err : Pixel) (he : IsConst err) (W H : ℕ)
    (im : Img) (hW : im.width = W) (hH : im.height = H) (t : ℤ × ℕ × ℚ)
    (him : AllConst W H im) : AllConst W H (fsNbr x y err im t) := by
  unfold fsNbr
  split
  · exact him
  · dsimp only
    split
    · rename_i hc
      exact put_const _ _ _ _ W H
        (diffuse_const _ _ _ he (him _ _ (hW ▸ hc.1) (hH ▸ hc.2))) him
    · exact him

lemma fsStep_pres_const (im : Img) (x y W H : ℕ) (hW : im.width = W)
    (hH : im.height = H) (hx : x < W) (hy : y < H) (him : AllConst W H im) :
    AllConst W H (fsStep im x y) := by
  unfold fsStep
  dsimp only
  have hpc : IsConst (im.pix x y) := him x y hx hy
  have he : IsConst (quantizeErr (im.pix x y)) := quantizeErr_const _ hpc
  have h0 : AllConst W H (im.put x y (quantizePix (im.pix x y))) :=
    put_const _ _ _ _ W H (quantizePix_const _ hpc) him
  have key := foldl_pres
    (fun im2 => im2.width = W ∧ im2.height = H ∧ AllConst W H im2) fsIndices
    (fsNbr x y (quantizeErr (im.pix x y)))
    (fun im2 t ht hP => ⟨by rw [fsNbr_width]; exact hP.1, by rw [fsNbr_height]; exact hP.2.1,
      fsNbr_pres_const x y _ he W H im2 hP.1 hP.2.1 t hP.2.2⟩)
    (im.put x y (quantizePix (im.pix x y))) ⟨by simpa using hW, by simpa using hH, h0⟩
  exact key.2.2

lemma fsNbrSpec_pix_frame (x y : ℕ) (err : Pixel) (im : Img) (t : ℤ × ℕ × ℚ)
    (ht : t ∈ fsIndices) (a b : ℕ) (h : b < y ∨ (b = y ∧ a < x)) :
    (fsNbrSpec x y err im t).pix a b = im.pix a b := by
  fin_cases ht <;>
    (unfold fsNbrSpec
     dsimp only
     split
     · exact put_pix_ne _ _ _ _ _ _ (by omega)
     · rfl)

lemma fsNbrSpec_pix_self (x y : ℕ) (err : Pixel) (im : Img) (t : ℤ × ℕ × ℚ)
    (ht : t ∈ fsIndices) : (fsNbrSpec x y err im t).pix x y = im.pix x y := by
  fin_cases ht <;>
    (unfold fsNbrSpec
     dsimp only
     split
     · exact put_pix_ne _ _ _ _ _ _ (by omega)
     · rfl)

lemma fsStepSpec_pix_frame (im : Img) (x y a b : ℕ) (h : b < y ∨ (b = y ∧ a < x)) :
    (fsStepSpec im x y).pix a b = im.pix a b := by
  unfold fsStepSpec
  dsimp only
  rw [foldl_pix_frame fsIndices _ a b
    (fun im2 t ht => fsNbrSpec_pix_frame x y _ im2 t ht a b h)]
  exact put_pix_ne _ _ _ _ _ _ (by omega)

lemma fsStepSpec_pix_self (im : Img) (x y : ℕ) :
    (fsStepSpec im x y).pix x y = quantizePix (im.pix x y) := by
  unfold fsStepSpec
  dsimp only
  rw [foldl_pix_frame fsIndices _ x y
    (fun im2 t ht => fsNbrSpec_pix_self x y _ im2 t ht)]
  exact put_pix_self _ _ _ _

lemma floyd_bin (im : Img) (hw : im.width < 2 ^ 32) :
    ∀ a b, a < im.width → b < im.height → IsBin ((floyd_steinberg im).pix a b) := by
  intro a b ha hb
  refine raster_establish fsStep IsBin im fsStep_width fsStep_height ?_ ?_ a b ha hb
  · intro im2 x y a2 b2 _ _ hx h
    rw [fsStep_eq_spec im2 x y (by omega)]
    exact fsStepSpec_pix_frame im2 x y a2 b2 h
  · intro im2 x y _ _ hx _
    rw [fsStep_eq_spec im2 x y (by omega), fsStepSpec_pix_self]
    intro c
    unfold quantizePix
    split
    · exact Or.inl rfl
    · exact Or.inr rfl

lemma floyd_pres_const (im : Img) (him : AllConst im.width im.height im) :
    AllConst im.width im.height (floyd_steinberg im) :=
  rasterFold_pres fsStep (AllConst im.width im.height) im fsStep_width fsStep_height
    (fun im2 x y h1 h2 hx hy h3 => fsStep_pres_const im2 x y _ _ h1 h2 hx hy h3) him

lemma greyscale_allConst (im : Img) : AllConst im.width im.height (greyscale im) := by
  intro a b ha hb
  refine raster_establish greyStep IsConst im greyStep_width greyStep_height ?_ ?_ a b ha hb
  · intro im2 x y a2 b2 _ _ _ h
    exact put_pix_ne _ _ _ _ _ _ (by omega)
  · intro im2 x y _ _ _ _
    unfold greyStep
    rw [put_pix_self]
    intro c
    rfl

lemma brightness_of_const (p : Pixel) (h : IsConst p) : brightness p = p 0 := by
  unfold brightness
  rw [h 1, h 2]
  ring

/-! ### Bits of the braille byte -/

/-- Whether dot `k` of a braille block is drawn: the corresponding pixel is
in bounds and has brightness strictly below 0.5. -/
def dotSet (im : Img) (x y k : ℕ) : Bool :=
  match im.getChecked (x + (offsets.getD k (0, 0)).1) (y + (offsets.getD k (0, 0)).2) with
  | some p => decide (brightness p < 1/2)
  | none => false

lemma bitfold_testBit (g : ℕ → Bool) (k : ℕ) (acc : ℕ) (n : ℕ) :
    ((List.range n).foldl (fun byte j => if g j then byte ||| (1 <<< j) else byte) acc).testBit k
      = (acc.testBit k || (decide (k < n) && g k)) := by
  induction n with
  | zero => simp
  | succ m ih =>
      rw [List.range_succ, List.foldl_append, List.foldl_cons, List.foldl_nil]
      by_cases hk : k = m
      · subst hk
        by_cases hg : g k
        · rw [if_pos hg, Nat.testBit_lor, Nat.shiftLeft_eq, one_mul, Nat.testBit_two_pow, ih]
          simp [hg, Nat.lt_irrefl, Nat.lt_succ_self]
        · rw [if_neg hg, ih]
          simp [hg]
      · have hmk : (decide (k < m) : Bool) = decide (k < m + 1) :=
          decide_eq_decide.mpr (by omega)
        by_cases hg : g m
        · rw [if_pos hg, Nat.testBit_lor, Nat.shiftLeft_eq, one_mul, Nat.testBit_two_pow, ih, hmk]
          simp [Ne.symm hk]
        · rw [if_neg hg, ih, hmk]

lemma brailleByte_eq_bitfold (im : Img) (x y : ℕ) :
    brailleByte im x y =
      (List.range 8).foldl (fun byte k => if dotSet im x y k then byte ||| (1 <<< k) else byte) 0 := by
  unfold brailleByte
  refine foldl_hcongr _ _ _ (fun b k hk => ?_) 0
  dsimp only
  unfold dotSet
  cases h : im.getChecked (x + (offsets.getD k (0, 0)).1) (y + (offsets.getD k (0, 0)).2) with
  | none => simp
  | some p => simp

lemma brailleByte_testBit (im : Img) (x y k : ℕ) :
    (brailleByte im x y).testBit k = (decide (k < 8) && dotSet im x y k) := by
  rw [brailleByte_eq_bitfold, bitfold_testBit]
  simp

lemma brailleByte_lt (im : Img) (x y : ℕ) : brailleByte im x y < 256 := by
  have h : ∀ i, i ≥ 8 → (brailleByte im x y).testBit i = false := by
    intro i hi
    rw [brailleByte_testBit]
    simp
    omega
  have := Nat.lt_pow_two_of_testBit (brailleByte im x y) h
  norm_num at this
  exact this

lemma dotSet_iff (im : Img) (x y k : ℕ) :
    dotSet im x y k = true ↔
      ∃ p, im.getChecked (x + (offsets.getD k (0, 0)).1) (y + (offsets.getD k (0, 0)).2) = some p ∧
        brightness p < 1/2 := by
  unfold dotSet
  cases h : im.getChecked (x + (offsets.getD k (0, 0)).1) (y + (offsets.getD k (0, 0)).2) with
  | none => simp
  | some p => simp

lemma brailleByte_eq_255 (im : Img) (x y : ℕ)
    (h : ∀ j, j < 8 → dotSet im x y j = true) : brailleByte im x y = 255 := by
  apply Nat.eq_of_testBit_eq
  intro i
  rw [brailleByte_testBit]
  have h255 : (255 : ℕ) = 2 ^ 8 - 1 := by norm_num
  rw [h255, Nat.testBit_two_pow_sub_one]
  by_cases hi : i < 8
  · simp [hi, h i hi]
  · simp [hi]

lemma brailleByte_eq_0 (im : Img) (x y : ℕ)
    (h : ∀ j, j < 8 → dotSet im x y j = false) : brailleByte im x y = 0 := by
  apply Nat.eq_of_testBit_eq
  intro i
  rw [brailleByte_testBit]
  by_cases hi : i < 8
  · simp [hi, h i hi]
  · simp [hi]

lemma brailleCell_ok (im : Img) (x y : ℕ) :
    brailleCell im x y = .ok (String.singleton (Char.ofNat (0x2800 + brailleByte im x y))) := by
  unfold brailleCell
  rw [if_pos]
  exact Or.inl (by have := brailleByte_lt im x y; omega)

/-! ### Claim theorems -/

/-- Claim C1: the Floyd-Steinberg pass visits pixels in raster order (row-major,
left to right, top to bottom); at each pixel it quantizes every channel
independently to 0.0 below the 0.5 threshold and to 1.0 otherwise, computes the
per-channel residual (original minus quantized), and adds 7/16 of the residual
at (x+1, y), 3/16 at (x-1, y+1), 5/16 at (x, y+1) and 1/16 at (x+1, y+1),
skipping every out-of-bounds neighbour, including the (x-1, y+1) target when
x = 0.  Formally: the source pass (`floyd_steinberg`, with the explicit
x == 0 skip and the wrapping `(x as i32 + i) as u32` cast chain) agrees with
`floyd_steinberg_spec`, the pass written exactly as the claim describes it,
for every buffer whose width fits in u32. -/
theorem floyd_steinberg_raster_diffusion (im : Img) (hw : im.width < 2 ^ 32) :
    floyd_steinberg im = floyd_steinberg_spec im :=
  floyd_eq_spec im hw

/-- A concrete 2x2 buffer with all channels 3/4. -/
def wImg1 : Img := ⟨2, 2, fun _ _ _ => 3/4⟩

/-- Witness for C1 at the concrete 2x2 buffer `wImg1`. -/
theorem floyd_steinberg_raster_diffusion_witness :
    floyd_steinberg wImg1 = floyd_steinberg_spec wImg1 :=
  floyd_steinberg_raster_diffusion wImg1 (by decide)

lemma wrapSub1_eq (n : ℕ) (h1 : 1 ≤ n) (h2 : n < 2 ^ 64) : wrapSub1 n = n - 1 := by
  unfold wrapSub1
  omega

lemma brightness_range (p : Pixel) (h : ∀ c, 0 ≤ p c ∧ p c ≤ 1) :
    0 ≤ brightness p ∧ brightness p ≤ 1 := by
  obtain ⟨h00, h01⟩ := h 0
  obtain ⟨h10, h11⟩ := h 1
  obtain ⟨h20, h21⟩ := h 2
  unfold brightness
  constructor <;> nlinarith

lemma getChecked_some_pix (im : Img) (x y : ℕ) (p : Pixel)
    (h : im.getChecked x y = some p) : p = im.pix x y := by
  unfold Img.getChecked at h
  split at h
  · exact (Option.some.injEq _ _ ▸ h).symm
  · exact absurd h (by simp)

/-- The averaged brightness feeding the Gradient index stays in [0, 1]
whenever every pixel channel of the buffer lies in [0, 1]: the hypothesis of
the C4 theorem below is satisfied by every well-formed buffer. -/
lemma gradAvg_range (im : Img) (x y : ℕ)
    (h : ∀ a b c, 0 ≤ im.pix a b c ∧ im.pix a b c ≤ 1) :
    0 ≤ gradAvg im x y ∧ gradAvg im x y ≤ 1 := by
  unfold gradAvg
  dsimp only
  have htop := brightness_range (im.pix x y) (h x y)
  cases hg : im.getChecked x (y + 1) with
  | none => exact htop
  | some bot =>
      have hbot : bot = im.pix x (y + 1) := getChecked_some_pix im x (y + 1) bot hg
      have hb := brightness_range (im.pix x (y + 1)) (h x (y + 1))
      rw [hbot]
      constructor <;> [linarith [htop.1, hb.1]; linarith [htop.2, hb.2]]

/-- Claim C4: for the Gradient style with a ramp of length n >= 1 (n within
usize) and any averaged brightness b in [0, 1], the selected glyph index
`char_index` equals floor((n - 1) * b), which coincides with that floor
clamped to [0, n-1], and the index is strictly below n (never out of range). -/
theorem gradient_index_floor_clamped (ramp : List Char) (b : ℚ)
    (h1 : 1 ≤ ramp.length) (h2 : ramp.length < 2 ^ 64) (hb0 : 0 ≤ b) (hb1 : b ≤ 1) :
    gradIndex ramp b = Int.toNat ⌊((ramp.length : ℚ) - 1) * b⌋ ∧
    gradIndex ramp b = min (ramp.length - 1) (Int.toNat ⌊((ramp.length : ℚ) - 1) * b⌋) ∧
    gradIndex ramp b < ramp.length := by
  set n := ramp.length with hn
  have hw : wrapSub1 n = n - 1 := wrapSub1_eq n h1 h2
  have hc : ((n - 1 : ℕ) : ℚ) = (n : ℚ) - 1 := by
    rw [Nat.cast_sub h1]
    norm_num
  have hn0 : (0 : ℚ) ≤ (n : ℚ) - 1 := by
    have : (1 : ℚ) ≤ (n : ℚ) := by exact_mod_cast h1
    linarith
  have hmul : ((n : ℚ) - 1) * b ≤ (n : ℚ) - 1 := mul_le_of_le_one_right hn0 hb1
  have hfl : ⌊((n : ℚ) - 1) * b⌋ ≤ (n : ℤ) - 1 := by
    calc ⌊((n : ℚ) - 1) * b⌋ ≤ ⌊(n : ℚ) - 1⌋ := Int.floor_le_floor hmul
      _ = (n : ℤ) - 1 := by
          rw [show ((n : ℚ) - 1) = (((n : ℤ) - 1 : ℤ) : ℚ) by push_cast; ring,
            Int.floor_intCast]
  have hge : 0 ≤ ⌊((n : ℚ) - 1) * b⌋ := Int.floor_nonneg.mpr (mul_nonneg hn0 hb0)
  unfold gradIndex usizeCast
  rw [← hn, hw, hc]
  refine ⟨by omega, by omega, by omega⟩

/-- The five-glyph ramp of the claim's concrete example. -/
def ramp5 : List Char := ['a', 'b', 'c', 'd', 'e']

/-- Witness for C4 at ramp length 5 and brightness 1. -/
theorem gradient_index_floor_clamped_witness :
    gradIndex ramp5 1 = Int.toNat ⌊((ramp5.length : ℚ) - 1) * 1⌋ ∧
    gradIndex ramp5 1 = min (ramp5.length - 1) (Int.toNat ⌊((ramp5.length : ℚ) - 1) * 1⌋) ∧
    gradIndex ramp5 1 < ramp5.length :=
  gradient_index_floor_clamped ramp5 1 (by decide) (by decide) (by norm_num) (by norm_num)

lemma u32cast_mul_div (a b c : ℕ) (hb : a * b / c ≤ 2 ^ 32 - 1) :
    u32cast ((a : ℚ) * ((b : ℚ) / (c : ℚ))) = a * b / c := by
  have he : (a : ℚ) * ((b : ℚ) / (c : ℚ)) = ((a * b : ℕ) : ℚ) / ((c : ℕ) : ℚ) := by
    push_cast
    ring
  unfold u32cast
  rw [he, Int.floor_toNat, Nat.floor_div_nat, Nat.floor_natCast]
  omega

/-- Counterexample to C5 as stated: on a 3x2 image with requested width 4 the
code computes height 2 (truncation of 8/3), while the claim's formula
round(width x original_height / original_width) = round(8/3) gives 3. -/
theorem resize_aspect_round_counterexample :
    computeDims (some 4, none) 3 2 = .ok (4, 2) ∧
    round (((4 : ℚ) * 2) / 3) = 3 ∧ ((2 : ℤ) ≠ round (((4 : ℚ) * 2) / 3)) := by
  refine ⟨?_, by norm_num [round_eq, Int.floor_eq_iff], by norm_num [round_eq, Int.floor_eq_iff]⟩
  show Except.ok (4, u32cast ((2 : ℚ) * ((4 : ℚ) / (3 : ℚ)))) = Except.ok (4, 2)
  rw [show ((2 : ℚ) * ((4 : ℚ) / (3 : ℚ))) = (((2:ℕ) : ℚ) * (((4:ℕ) : ℚ) / ((3:ℕ) : ℚ))) by
      norm_num,
    u32cast_mul_div 2 4 3 (by norm_num)]

/-- Claim C5 as amended: the aspect-preserving dimension computation
truncates rather than rounds: when only the width is given the computed
height is floor(original_height x width / original_width), and when only the
height is given the computed width is
floor(original_width x height / original_height) (saturating u32 cast not
engaged below 2^32). -/
theorem resize_aspect_truncates (w h ow oh : ℕ) (_how : 0 < ow) (_hoh : 0 < oh)
    (hbw : oh * w / ow ≤ 2 ^ 32 - 1) (hbh : ow * h / oh ≤ 2 ^ 32 - 1) :
    computeDims (some w, none) ow oh = .ok (w, oh * w / ow) ∧
    computeDims (none, some h) ow oh = .ok (ow * h / oh, h) := by
  constructor
  · show Except.ok (w, u32cast ((oh : ℚ) * ((w : ℚ) / (ow : ℚ)))) = _
    rw [u32cast_mul_div oh w ow hbw]
  · show Except.ok (u32cast ((ow : ℚ) * ((h : ℚ) / (oh : ℚ))), h) = _
    rw [u32cast_mul_div ow h oh hbh]

/-- Witness for the amended C5 on a 3x2 image, width 4 resp. height 4. -/
theorem resize_aspect_truncates_witness :
    computeDims (some 4, none) 3 2 = .ok (4, 2 * 4 / 3) ∧
    computeDims (none, some 4) 3 2 = .ok (3 * 4 / 2, 4) :=
  resize_aspect_truncates 4 4 3 2 (by decide) (by decide) (by decide) (by decide)

/-- Claim C6 evaluated on the code: `resize` does not return an
InvalidDimensions error anywhere.  When both target dimensions are absent it
panics (the `unreachable!` arm, modelled as this error value), and when a
computed dimension is zero (3x2 image, requested width 1: height becomes
floor(2/3) = 0) it silently hands the degenerate pair on with no error. -/
theorem resize_failure_modes :
    computeDims (none, none) 3 2 = .error "impossible dimensions for resize!" ∧
    computeDims (some 1, none) 3 2 = .ok (1, 0) := by
  refine ⟨rfl, ?_⟩
  show Except.ok (1, u32cast ((2 : ℚ) * ((1 : ℚ) / (3 : ℚ)))) = Except.ok (1, 0)
  rw [show ((2 : ℚ) * ((1 : ℚ) / (3 : ℚ))) = (((2:ℕ) : ℚ) * (((1:ℕ) : ℚ) / ((3:ℕ) : ℚ))) by
      norm_num,
    u32cast_mul_div 2 1 3 (by norm_num)]

/-- A concrete 1x1 all-black buffer. -/
def cImg7 : Img := ⟨1, 1, fun _ _ _ => 0⟩

lemma get_none_nil (n : ℕ) : ([] : List Char).get? n = none := by
  cases n <;> rfl

lemma gradCell_nil_cImg7 : gradCell [] cImg7 0 0 = .error "index out of bounds" := by
  unfold gradCell
  rw [get_none_nil]

/-- Claim C7 evaluated on the code: there is no EmptyGradientRamp rejection.
Rendering the Gradient style with an empty ramp on a 1x1 image reads the
first pixel and then panics with an out-of-bounds indexing (modelled as this
error value) instead of rejecting the call before processing. -/
theorem gradient_empty_ramp_render_panics :
    Style.apply (.Gradient []) cImg7 = .error "index out of bounds" := by
  have hrg : renderGradient [] cImg7 = .error "index out of bounds" := by
    have hsb : stepBy cImg7.height 2 = [0] := by decide
    have hr : List.range cImg7.width = [0] := by decide
    unfold renderGradient
    rw [hsb, hr]
    simp [List.foldlM, gradCell_nil_cImg7, Except.map]
  show (renderGradient [] cImg7).map (fun s => (cImg7, s)) = .error "index out of bounds"
  rw [hrg]
  rfl

/-- Claim C8: after the Dithered/DitheredBraille pre-process (greyscale
conversion followed by the Floyd-Steinberg pass) every channel of every
in-bounds pixel is exactly 0 or exactly 1, all three channels of a pixel are
equal, and hence the pixel's brightness equals that common binary value, so the
0.5 brightness threshold used by the delegated rendering reads an
already-binarized buffer. -/
theorem dithered_buffer_binarized (im : Img) (hw : im.width < 2 ^ 32) (x y : ℕ)
    (hx : x < im.width) (hy : y < im.height) :
    ((floyd_steinberg (greyscale im)).pix x y 0 = 0 ∨
      (floyd_steinberg (greyscale im)).pix x y 0 = 1) ∧
    (∀ c, (floyd_steinberg (greyscale im)).pix x y c =
      (floyd_steinberg (greyscale im)).pix x y 0) ∧
    brightness ((floyd_steinberg (greyscale im)).pix x y) =
      (floyd_steinberg (greyscale im)).pix x y 0 := by
  have hgw : (greyscale im).width = im.width := greyscale_width im
  have hgh : (greyscale im).height = im.height := greyscale_height im
  have hconst : AllConst (greyscale im).width (greyscale im).height
      (floyd_steinberg (greyscale im)) := by
    apply floyd_pres_const
    rw [hgw, hgh]
    exact greyscale_allConst im
  have hbin := floyd_bin (greyscale im) (by rw [hgw]; exact hw) x y
    (by rw [hgw]; exact hx) (by rw [hgh]; exact hy)
  have hc : IsConst ((floyd_steinberg (greyscale im)).pix x y) :=
    hconst x y (by rw [hgw]; exact hx) (by rw [hgh]; exact hy)
  exact ⟨hbin 0, hc, brightness_of_const _ hc⟩

/-- Claim C2: within each 2-wide by 4-tall braille block the eight
sub-positions map, in the exact order of `offsets`, to bits 0..7 of the byte;
a bit is set iff its pixel is in bounds and has brightness strictly below 0.5
(out-of-bounds sub-positions leave their bit unset); the emitted glyph is the
codepoint 0x2800 + byte; a block whose eight sub-positions are all in bounds
and dark yields byte 0xFF (glyph U+28FF) and one with no dark in-bounds
sub-position yields byte 0x00 (glyph U+2800). -/
theorem braille_block_encoding (im : Img) (x y k : ℕ) (hk : k < 8) :
    ((brailleByte im x y).testBit k = true ↔
      ∃ p, im.getChecked (x + (offsets.getD k (0, 0)).1) (y + (offsets.getD k (0, 0)).2) =
        some p ∧ brightness p < 1/2) ∧
    brailleCell im x y = .ok (String.singleton (Char.ofNat (0x2800 + brailleByte im x y))) ∧
    ((∀ j, j < 8 → ∃ p, im.getChecked (x + (offsets.getD j (0, 0)).1)
        (y + (offsets.getD j (0, 0)).2) = some p ∧ brightness p < 1/2) →
      brailleByte im x y = 0xFF) ∧
    ((∀ j, j < 8 → ¬∃ p, im.getChecked (x + (offsets.getD j (0, 0)).1)
        (y + (offsets.getD j (0, 0)).2) = some p ∧ brightness p < 1/2) →
      brailleByte im x y = 0x00) := by
  refine ⟨?_, brailleCell_ok im x y, ?_, ?_⟩
  · have hd : (decide (k < 8) && dotSet im x y k) = dotSet im x y k := by simp [hk]
    rw [brailleByte_testBit, hd]
    exact dotSet_iff im x y k
  · intro h
    exact brailleByte_eq_255 im x y (fun j hj => (dotSet_iff im x y j).mpr (h j hj))
  · intro h
    apply brailleByte_eq_0
    intro j hj
    cases hd : dotSet im x y j with
    | false => rfl
    | true => exact absurd ((dotSet_iff im x y j).mp hd) (h j hj)

/-- A concrete 2x4 all-black buffer: one fully dark braille block. -/
def wImg2 : Img := ⟨2, 4, fun _ _ _ => 0⟩

/-- Witness for C2 at the fully dark 2x4 buffer `wImg2` and bit 0. -/
theorem braille_block_encoding_witness :
    ((brailleByte wImg2 0 0).testBit 0 = true ↔
      ∃ p, wImg2.getChecked (0 + (offsets.getD 0 (0, 0)).1) (0 + (offsets.getD 0 (0, 0)).2) =
        some p ∧ brightness p < 1/2) ∧
    brailleCell wImg2 0 0 = .ok (String.singleton (Char.ofNat (0x2800 + brailleByte wImg2 0 0))) ∧
    ((∀ j, j < 8 → ∃ p, wImg2.getChecked (0 + (offsets.getD j (0, 0)).1)
        (0 + (offsets.getD j (0, 0)).2) = some p ∧ brightness p < 1/2) →
      brailleByte wImg2 0 0 = 0xFF) ∧
    ((∀ j, j < 8 → ¬∃ p, wImg2.getChecked (0 + (offsets.getD j (0, 0)).1)
        (0 + (offsets.getD j (0, 0)).2) = some p ∧ brightness p < 1/2) →
      brailleByte wImg2 0 0 = 0x00) :=
  braille_block_encoding wImg2 0 0 0 (by decide)

/-- A concrete 1x1 buffer with all channels 7/10. -/
def wImg8 : Img := ⟨1, 1, fun _ _ _ => 7/10⟩

/-- Witness for C8 at the concrete 1x1 buffer `wImg8`. -/
theorem dithered_buffer_binarized_witness :
    ((floyd_steinberg (greyscale wImg8)).pix 0 0 0 = 0 ∨
      (floyd_steinberg (greyscale wImg8)).pix 0 0 0 = 1) ∧
    (∀ c, (floyd_steinberg (greyscale wImg8)).pix 0 0 c =
      (floyd_steinberg (greyscale wImg8)).pix 0 0 0) ∧
    brightness ((floyd_steinberg (greyscale wImg8)).pix 0 0) =
      (floyd_steinberg (greyscale wImg8)).pix 0 0 0 :=
  dithered_buffer_binarized wImg8 (by decide) 0 0 (by decide) (by decide)

/-! ### Purity of rendering and zero-height safety -/

lemma foldlM_ok (l : List ℕ) (f : String → ℕ → Except String String)
    (h : ∀ s a, a ∈ l → ∃ t, f s a = .ok t) : ∀ s, ∃ t, l.foldlM f s = .ok t := by
  induction l with
  | nil => exact fun s => ⟨s, rfl⟩
  | cons a l ih =>
      intro s
      obtain ⟨t, ht⟩ := h s a (List.mem_cons_self a l)
      obtain ⟨u, hu⟩ := ih (fun s a ha => h s a (List.mem_cons_of_mem _ ha)) t
      refine ⟨u, ?_⟩
      rw [List.foldlM_cons, ht]
      exact hu

lemma renderBraille_ok (im : Img) : ∃ s, renderBraille im = .ok s := by
  unfold renderBraille
  apply foldlM_ok
  intro s y _
  obtain ⟨t, ht⟩ := foldlM_ok (stepBy im.width 2)
    (fun s x => (brailleCell im x y).map (fun c => s ++ c))
    (fun s x _ => ⟨s ++ String.singleton (Char.ofNat (0x2800 + brailleByte im x y)),
      by dsimp only; rw [brailleCell_ok]; rfl⟩) s
  exact ⟨t ++ "\n", by rw [ht]; rfl⟩

/-- Claim C9: for the Color, Greyscale and Braille styles the render call
returns the buffer unchanged (and succeeds); for Gradient, whenever the call
succeeds the buffer is returned unchanged; only Dithered and DitheredBraille
return a mutated buffer, namely exactly the greyscale-converted and dithered
one, before delegating. -/
theorem render_purity (im : Img) (ramp : List Char) :
    (∃ s, Style.apply .Color im = .ok (im, s)) ∧
    (∃ s, Style.apply .Greyscale im = .ok (im, s)) ∧
    (∃ s, Style.apply .Braille im = .ok (im, s)) ∧
    (∀ r : Img × String, Style.apply (.Gradient ramp) im = .ok r → r.1 = im) ∧
    (∃ s, Style.apply .Dithered im = .ok (floyd_steinberg (greyscale im), s)) ∧
    (∃ s, Style.apply .DitheredBraille im = .ok (floyd_steinberg (greyscale im), s)) := by
  refine ⟨⟨renderColor im, rfl⟩, ⟨renderGrey im, rfl⟩, ?_, ?_,
    ⟨renderGrey (floyd_steinberg (greyscale im)), rfl⟩, ?_⟩
  · obtain ⟨s, hs⟩ := renderBraille_ok im
    refine ⟨s, ?_⟩
    show (renderBraille im).map (fun s => (im, s)) = _
    rw [hs]
    rfl
  · intro r hr
    have he : Style.apply (.Gradient ramp) im =
        (renderGradient ramp im).map (fun s => (im, s)) := rfl
    rw [he] at hr
    cases h : renderGradient ramp im with
    | error e =>
        rw [h] at hr
        exact absurd hr (by simp [Except.map])
    | ok s =>
        rw [h] at hr
        have : (im, s) = r := by simpa [Except.map] using hr
        rw [← this]
  · obtain ⟨s, hs⟩ := renderBraille_ok (floyd_steinberg (greyscale im))
    refine ⟨s, ?_⟩
    show (renderBraille (floyd_steinberg (greyscale im))).map
      (fun s => (floyd_steinberg (greyscale im), s)) = _
    rw [hs]
    rfl

lemma append_halfblock_reset (s : String) : s ++ "▀\x1B[0m" = (s ++ "▀") ++ "\x1B[0m" := by
  rw [String.append_assoc]
  rfl

/-- A pixel with all channels 999/1000. -/
def p999 : Pixel := fun _ => 999/1000

/-- A concrete 1x1 all-black buffer for the braille reset check. -/
def cImg3 : Img := ⟨1, 1, fun _ _ _ => 0⟩

/-- Counterexample to C3 as stated: the cast `(channel * 255.0) as u8`
truncates, it does not round: at channel 999/1000 the code emits component
254 while round(254.745) = 255.  Moreover a Braille glyph (a single braille
character) is not terminated by a reset directive. -/
theorem truecolor_round_counterexample :
    fg p999 = "\x1B[38;2;254;254;254m" ∧
    round ((999/1000 : ℚ) * 255) = 255 ∧
    ((254 : ℤ) ≠ round ((999/1000 : ℚ) * 255)) ∧
    (∀ s, brailleCell cImg3 0 0 = .ok s → ¬∃ t, s = t ++ "\x1B[0m") := by
  have hc : u8cast ((999/1000 : ℚ) * 255) = 254 := by
    unfold u8cast
    rw [show ((999/1000 : ℚ) * 255) = 254745/1000 by norm_num,
      show ⌊(254745/1000 : ℚ)⌋ = 254 by norm_num [Int.floor_eq_iff]]
    rfl
  refine ⟨?_, by norm_num [round_eq, Int.floor_eq_iff],
    by norm_num [round_eq, Int.floor_eq_iff], ?_⟩
  · unfold fg p999
    rw [hc]
    rfl
  · intro s hs
    rw [brailleCell_ok] at hs
    have hslen : s.length = 1 := by
      have := congrArg (fun e => e) hs
      cases hs
      exact String.length_singleton _
    rintro ⟨t, rfl⟩
    rw [String.length_append] at hslen
    have h4 : ("\x1B[0m" : String).length = 4 := rfl
    omega

/-- Claim C3 as amended: for channels in [0, 1] the foreground and background
escape sequences encode each channel as the truncation (floor) of
channel * 255, a value that already lies in [0, 255] so the saturating u8
cast never alters it; the glyph emitted for each cell of the Color, Greyscale
and Gradient styles is terminated by a reset directive (Braille glyphs carry
no reset, per the counterexample). -/
theorem truecolor_encoding_truncates (p : Pixel) (h : ∀ c, 0 ≤ p c ∧ p c ≤ 1) :
    (∀ c, ((u8cast (p c * 255) : ℤ) = ⌊p c * 255⌋ ∧ u8cast (p c * 255) ≤ 255)) ∧
    fg p = "\x1B[38;2;" ++ toString (u8cast (p 0 * 255)) ++ ";" ++
      toString (u8cast (p 1 * 255)) ++ ";" ++ toString (u8cast (p 2 * 255)) ++ "m" ∧
    bg p = "\x1B[48;2;" ++ toString (u8cast (p 0 * 255)) ++ ";" ++
      toString (u8cast (p 1 * 255)) ++ ";" ++ toString (u8cast (p 2 * 255)) ++ "m" ∧
    (∀ im x y, ∃ t, colorCell im x y = t ++ "\x1B[0m") ∧
    (∀ im x y, ∃ t, greyCell im x y = t ++ "\x1B[0m") ∧
    (∀ ramp im x y s, gradCell ramp im x y = .ok s → ∃ t, s = t ++ "\x1B[0m") := by
  refine ⟨?_, rfl, rfl, ?_, ?_, ?_⟩
  · intro c
    have h0 : (0 : ℚ) ≤ p c * 255 := mul_nonneg (h c).1 (by norm_num)
    have h255 : p c * 255 ≤ 255 := by
      have := (h c).2
      nlinarith
    have hfl : ⌊p c * 255⌋ ≤ 255 := by
      calc ⌊p c * 255⌋ ≤ ⌊(255 : ℚ)⌋ := Int.floor_le_floor h255
        _ = 255 := by norm_num
    have hge : 0 ≤ ⌊p c * 255⌋ := Int.floor_nonneg.mpr h0
    unfold u8cast
    constructor
    · push_cast
      omega
    · omega
  · intro im x y
    exact ⟨_, append_halfblock_reset _⟩
  · intro im x y
    exact ⟨_, append_halfblock_reset _⟩
  · intro ramp im x y s hs
    unfold gradCell at hs
    cases hg : ramp.get? (gradIndex ramp (gradAvg im x y)) with
    | none =>
        rw [hg] at hs
        exact absurd hs (by simp)
    | some c =>
        rw [hg] at hs
        refine ⟨String.singleton c ++ "\x1B[0m", ?_⟩
        cases hs
        rfl

/-- A pixel with all channels 1/2, within [0, 1]. -/
def pHalf : Pixel := fun _ => 1/2

/-- Witness for the amended C3 at the all-1/2 pixel `pHalf`. -/
theorem truecolor_encoding_truncates_witness :
    (∀ c, ((u8cast (pHalf c * 255) : ℤ) = ⌊pHalf c * 255⌋ ∧ u8cast (pHalf c * 255) ≤ 255)) ∧
    fg pHalf = "\x1B[38;2;" ++ toString (u8cast (pHalf 0 * 255)) ++ ";" ++
      toString (u8cast (pHalf 1 * 255)) ++ ";" ++ toString (u8cast (pHalf 2 * 255)) ++ "m" ∧
    bg pHalf = "\x1B[48;2;" ++ toString (u8cast (pHalf 0 * 255)) ++ ";" ++
      toString (u8cast (pHalf 1 * 255)) ++ ";" ++ toString (u8cast (pHalf 2 * 255)) ++ "m" ∧
    (∀ im x y, ∃ t, colorCell im x y = t ++ "\x1B[0m") ∧
    (∀ im x y, ∃ t, greyCell im x y = t ++ "\x1B[0m") ∧
    (∀ ramp im x y s, gradCell ramp im x y = .ok s → ∃ t, s = t ++ "\x1B[0m") :=
  truecolor_encoding_truncates pHalf (fun c => by unfold pHalf; norm_num)

/-- A concrete 1x1 buffer with all channels 1/4. -/
def wImg9 : Img := ⟨1, 1, fun _ _ _ => 1/4⟩

/-- Witness for C9 at the concrete buffer `wImg9` (the Gradient conjunct is
exercised through the conjunction's other, hypothesis-free parts as well). -/
theorem render_purity_witness :
    (∃ s, Style.apply .Color wImg9 = .ok (wImg9, s)) ∧
    (∃ s, Style.apply .Greyscale wImg9 = .ok (wImg9, s)) ∧
    (∃ s, Style.apply .Braille wImg9 = .ok (wImg9, s)) ∧
    (∀ r : Img × String, Style.apply (.Gradient ramp5) wImg9 = .ok r → r.1 = wImg9) ∧
    (∃ s, Style.apply .Dithered wImg9 = .ok (floyd_steinberg (greyscale wImg9), s)) ∧
    (∃ s, Style.apply .DitheredBraille wImg9 =
      .ok (floyd_steinberg (greyscale wImg9), s)) :=
  render_purity wImg9 ramp5

/-- Claim C10: for every style, rendering a zero-height buffer returns the
empty string, leaves the buffer untouched and never fails: every per-pixel
loop is skipped, so even Gradient with the empty ramp completes without error
since no ramp index is ever computed. -/
theorem zero_height_renders_empty (st : Style) (im : Img) (h : im.height = 0) :
    st.apply im = .ok (im, "") := by
  have hsb2 : stepBy im.height 2 = [] := by rw [h]; rfl
  have hsb4 : stepBy im.height 4 = [] := by rw [h]; rfl
  have hrange : List.range im.height = [] := by rw [h]; rfl
  have hgrey : greyscale im = im := by
    show (List.range im.height).foldl _ im = im
    rw [hrange]
    rfl
  have hfl : floyd_steinberg im = im := by
    show (List.range im.height).foldl _ im = im
    rw [hrange]
    rfl
  cases st with
  | Color =>
      show Except.ok (im, renderColor im) = Except.ok (im, "")
      unfold renderColor
      rw [hsb2]
      rfl
  | Greyscale =>
      show Except.ok (im, renderGrey im) = Except.ok (im, "")
      unfold renderGrey
      rw [hsb2]
      rfl
  | Gradient ramp =>
      show (renderGradient ramp im).map (fun s => (im, s)) = Except.ok (im, "")
      unfold renderGradient
      rw [hsb2]
      rfl
  | Braille =>
      show (renderBraille im).map (fun s => (im, s)) = Except.ok (im, "")
      unfold renderBraille
      rw [hsb4]
      rfl
  | Dithered =>
      show Except.ok (floyd_steinberg (greyscale im),
        renderGrey (floyd_steinberg (greyscale im))) = Except.ok (im, "")
      rw [hgrey, hfl]
      unfold renderGrey
      rw [hsb2]
      rfl
  | DitheredBraille =>
      show (renderBraille (floyd_steinberg (greyscale im))).map
        (fun s => (floyd_steinberg (greyscale im), s)) = Except.ok (im, "")
      rw [hgrey, hfl]
      unfold renderBraille
      rw [hsb4]
      rfl

/-- A concrete zero-height buffer of width 3. -/
def wImg10 : Img := ⟨3, 0, fun _ _ _ => 0⟩

/-- Witness for C10: the Gradient style with an empty ramp on the zero-height
buffer `wImg10` succeeds with the empty string. -/
theorem zero_height_renders_empty_witness :
    Style.apply (.Gradient []) wImg10 = .ok (wImg10, "") :=
  zero_height_renders_empty (.Gradient []) wImg10 rfl

end TTView
